import Mathlib

/-!
Shallow embedding of the document-ingestion / retrieval core of the
embedding-app repository (TypeScript sources under `src/`), together with
proofs of the specified properties.

The embedded units are:
* `sanitizeText`            — src/utils/index.ts, lines 3–27 (identical copy in
                              src/app/api/ingest-worker/route.ts lines 37–61);
* `splitIntoChunks`         — src/utils/index.ts, lines 29–57 (identical copies
                              in both API routes);
* `extractPageText`         — the per-page reading-order reconstruction inside
                              `extractPdfTextInReadingOrder`, src/utils/index.ts
                              lines 68–106;
* `retrieveWithFallback`    — src/app/api/ask-question/route.tsx lines 18–46;
* `ingestWorkerPOST`        — the ingest worker handler,
                              src/app/api/ingest-worker/route.ts lines 91–153.

JavaScript strings are modelled as `List Char` (one entry per Unicode code
point, exactly what `Array.from` iterates over); string length as used by the
chunker (`current.length`) counts UTF-16 code units, modelled by `jsLen`.
IEEE doubles appearing in the PDF path carry only exact decimal values here
(page coordinates, 2.5 tolerance, 0.3/0.2 thresholds), so they are modelled
as rationals; no rounding behaviour is relied on.
-/

namespace EmbeddingApp

/-- The character set matched by JavaScript `\s` and trimmed by
`String.prototype.trim`: WhiteSpace ∪ LineTerminator per ECMA-262. -/
def isJsWs (c : Char) : Bool :=
  let n := c.toNat
  (n == 0x09) || (n == 0x0a) || (n == 0x0b) || (n == 0x0c) || (n == 0x0d) ||
  (n == 0x20) || (n == 0xa0) || (n == 0x1680) ||
  (0x2000 ≤ n && n ≤ 0x200a) || (n == 0x2028) || (n == 0x2029) ||
  (n == 0x202f) || (n == 0x205f) || (n == 0x3000) || (n == 0xfeff)

/-- JavaScript `String.prototype.trim` on a list of code points. -/
def jsTrimL (l : List Char) : List Char :=
  ((l.dropWhile isJsWs).reverse.dropWhile isJsWs).reverse

/-- JavaScript `String.prototype.trim`. -/
def jsTrimString (s : String) : String := ⟨jsTrimL s.data⟩

/-- Number of UTF-16 code units of one code point (JavaScript `length`
counts these). -/
def utf16Units (c : Char) : Nat := if c.toNat < 0x10000 then 1 else 2

/-- JavaScript string length (UTF-16 code units) of a list of code points. -/
def jsLen (l : List Char) : Nat := (l.map utf16Units).sum

/-- JavaScript string length (UTF-16 code units). -/
def jsLenStr (s : String) : Nat := jsLen s.data

/-- Join fragments with a single space between consecutive fragments
(JavaScript `a + " " + b` accumulation / `Array.prototype.join(" ")`). -/
def joinSpL : List (List Char) → List Char
  | [] => []
  | [s] => s
  | s :: rest => s ++ ' ' :: joinSpL rest

/-- Variant of `joinSpL` on strings. -/
def joinSp (g : List String) : String := ⟨joinSpL (g.map String.data)⟩

/-- Join fragments with a newline (`Array.prototype.join("\n")`). -/
def joinNlL : List (List Char) → List Char
  | [] => []
  | [s] => s
  | s :: rest => s ++ '\n' :: joinNlL rest

/-- Variant of `joinNlL` on strings. -/
def joinNl (g : List String) : String := ⟨joinNlL (g.map String.data)⟩

/-! ### Text normalizer: `sanitizeText` (src/utils/index.ts lines 3–27)

Source:
```
const cleaned = Array.from(input).map((char) => {
  const codePoint = char.codePointAt(0);
  if (codePoint === undefined) return "";
  if ((codePoint <= 31 && codePoint !== 9 && codePoint !== 10 && codePoint !== 13) ||
      (codePoint >= 0x7f && codePoint <= 0x9f)) return " ";
  return char;
}).join("").replace(/�/g, " ");
return cleaned.trim();
```
`Array.from` yields one string per code point, so `codePointAt(0)` is never
`undefined`; each mapped element is a single code point, so the map-join is a
plain per-character map.  The `if (!input) return ""` guard agrees with the
pipeline on the empty string and needs no separate case. -/

/-- Code-point test of the first branch: C0 controls other than 9/10/13,
plus U+007F..U+009F. -/
def isControlStripped (n : Nat) : Bool :=
  (n ≤ 31 && !(n == 9) && !(n == 10) && !(n == 13)) || (0x7f ≤ n && n ≤ 0x9f)

/-- The per-character branch of `sanitizeText`'s map. -/
def sanitizeChar (c : Char) : Char := if isControlStripped c.toNat then ' ' else c

/-- The step `.replace(/�/g, " ")` acting on one code point. -/
def replaceFFFD (c : Char) : Char := if c = '�' then ' ' else c

/-- The function `sanitizeText` from src/utils/index.ts lines 3–27. -/
def sanitizeText (input : String) : String :=
  ⟨jsTrimL ((input.data.map sanitizeChar).map replaceFFFD)⟩

/-- The character class the SPEC says is *removed*: ASCII C0 controls other
than tab/LF/CR, and the C1 range U+0080..U+009F (the spec does not mention
U+007F). -/
def specRemovedCode (n : Nat) : Bool :=
  (n ≤ 31 && !(n == 9) && !(n == 10) && !(n == 13)) || (0x80 ≤ n && n ≤ 0x9f)

/-- Modelled from the spec's words for claim C4 (removal reading): drop every
character of the removed class, replace U+FFFD by a space, trim. -/
def normalizeSpecRemoving (input : String) : String :=
  ⟨jsTrimL ((input.data.filter (fun c => !specRemovedCode c.toNat)).map replaceFFFD)⟩

/-- The amended reading of claim C4: the stripped class (which also contains
U+007F) is *replaced by a space* rather than removed; U+FFFD becomes a space;
the result is trimmed. -/
def normalizeSpecReplacing (input : String) : String :=
  ⟨jsTrimL (input.data.map (fun c =>
    if isControlStripped c.toNat then ' ' else replaceFFFD c))⟩

/-! ### Chunker: `splitIntoChunks` (src/utils/index.ts lines 29–57)

Source:
```
const paragraphs = text.replace(/\r\n?/g, "\n").split(/\n+/);
const sentences = paragraphs.flatMap((p) =>
  p.split(/(?<=[.!?])\s+/).map((s) => s.trim()).filter((s) => s.length > 0));
const chunks = []; let current = "";
for (const sentence of sentences) {
  if (!current.length) { current = sentence; continue; }
  if (current.length + 1 + sentence.length <= maxChunkSize) current += " " + sentence;
  else { chunks.push(current); current = sentence; }
}
if (current.trim().length) chunks.push(current);
```
The two regex splits are rendered as single-pass state machines: the state is
`some cur` while a segment is being accumulated (in reverse) and `none` while
inside a separator run (the regexes `\n+` and `(?<=[.!?])\s+` consume a
maximal run, and a run that reaches the end of the string still closes a final
empty segment — both machines emit it, and the empty segment is dropped by the
`filter`). -/

/-- The step `text.replace(/\r\n?/g, "\n")`: CRLF and lone CR both become LF. -/
def normalizeNewlines : List Char → List Char
  | [] => []
  | '\r' :: '\n' :: rest => '\n' :: normalizeNewlines rest
  | '\r' :: rest => '\n' :: normalizeNewlines rest
  | c :: rest => c :: normalizeNewlines rest

/-- State machine for `split(/\n+/)`. -/
def splitParasAux : List Char → Option (List Char) → List (List Char)
  | [], some cur => [cur.reverse]
  | [], none => [[]]
  | c :: rest, some cur =>
      if c = '\n' then cur.reverse :: splitParasAux rest none
      else splitParasAux rest (some (c :: cur))
  | c :: rest, none =>
      if c = '\n' then splitParasAux rest none
      else splitParasAux rest (some [c])

/-- The split `split(/\n+/)`. -/
def splitParas (l : List Char) : List (List Char) := splitParasAux l (some [])

/-- Sentence-terminal punctuation `[.!?]`. -/
def isSentTerm (c : Char) : Bool := (c == '.') || (c == '!') || (c == '?')

/-- Whether the previous character of the accumulated (reversed) segment is
sentence-terminal — the regex lookbehind `(?<=[.!?])`. -/
def headTerm : List Char → Bool
  | p :: _ => isSentTerm p
  | [] => false

/-- State machine for `split(/(?<=[.!?])\s+/)`: a whitespace character opens a
separator run exactly when the previous character is `.`, `!` or `?`. -/
def splitSentAux : List Char → Option (List Char) → List (List Char)
  | [], some cur => [cur.reverse]
  | [], none => [[]]
  | c :: rest, some cur =>
      if isJsWs c && headTerm cur then cur.reverse :: splitSentAux rest none
      else splitSentAux rest (some (c :: cur))
  | c :: rest, none =>
      if isJsWs c then splitSentAux rest none
      else splitSentAux rest (some [c])

/-- The pipeline `p.split(/(?<=[.!?])\s+/).map((s) => s.trim()).filter((s) => s.length > 0)`. -/
def sentencesOfPara (p : List Char) : List (List Char) :=
  ((splitSentAux p (some [])).map jsTrimL).filter (fun s => decide (s ≠ []))

/-- The sentence stream of the chunker: paragraphs `flatMap` sentences. -/
def sentencesCore (l : List Char) : List (List Char) :=
  ((splitParas (normalizeNewlines l)).map sentencesOfPara).flatten

/-- The sentence stream on strings. -/
def sentenceStream (text : String) : List String :=
  (sentencesCore text.data).map String.mk

/-- The greedy packing loop of `splitIntoChunks`; `cur` is the `current`
accumulator (initially the empty string). -/
def buildChunks (maxChunkSize : Nat) : List (List Char) → List Char → List (List Char)
  | [], cur => if jsTrimL cur ≠ [] then [cur] else []
  | s :: rest, cur =>
      if cur = [] then buildChunks maxChunkSize rest s
      else if jsLen cur + 1 + jsLen s ≤ maxChunkSize then
        buildChunks maxChunkSize rest (cur ++ ' ' :: s)
      else cur :: buildChunks maxChunkSize rest s

/-- The chunker `splitIntoChunks` from src/utils/index.ts lines 29–57 (the API routes
carry identical private copies). -/
def splitIntoChunks (text : String) (maxChunkSize : Nat := 300) : List String :=
  (buildChunks maxChunkSize (sentencesCore text.data) []).map String.mk

/-! ### PDF reading order (src/utils/index.ts lines 68–106)

The `pagerender` callback of `extractPdfTextInReadingOrder`:
```
const rows = content.items.map((item) => {
  const [, , , , x, y] = item.transform;
  return { x, y, text: item.str.trim() };
});
rows.sort((a, b) => b.y - a.y || a.x - b.x);
const lineTol = 2.5;
const lines = [];
for (const row of rows) {
  const line = lines.find((candidate) => Math.abs(candidate.y - row.y) <= lineTol);
  if (line) line.parts.push({ x: row.x, text: row.text });
  else lines.push({ y: row.y, parts: [{ x: row.x, text: row.text }] });
}
return lines.map((line) =>
  line.parts.sort((a, b) => a.x - b.x).map((part) => part.text).join(" ")).join("\n");
```
`Array.prototype.sort` is stable; both comparator sorts are rendered as
stable insertion sorts (an element is inserted after every element strictly
before it under the comparator, so equal elements keep their input order). -/

/-- A positioned text item as handed to the page renderer: `str` plus the
6-entry position `transform` (x is entry 4, y is entry 5). -/
structure TextItem where
  str : String
  transform : List ℚ

/-- A row derived from one item: `{ x, y, text: item.str.trim() }`. -/
structure PdfRow where
  x : ℚ
  y : ℚ
  text : String
deriving DecidableEq

/-- One member of a line: `{ x, text }`. -/
structure LinePart where
  x : ℚ
  text : String
deriving DecidableEq

/-- A discovered line: representative `y` plus accumulated parts. -/
structure PdfLine where
  y : ℚ
  parts : List LinePart
deriving DecidableEq

/-- Stable insertion for the row comparator `(a, b) => b.y - a.y || a.x - b.x`
(descending `y`, then ascending `x`): walk past rows strictly before `r`. -/
def insertRowSorted (r : PdfRow) : List PdfRow → List PdfRow
  | [] => [r]
  | s :: rest =>
      if r.y < s.y ∨ (s.y = r.y ∧ s.x < r.x) then s :: insertRowSorted r rest
      else r :: s :: rest

/-- The sort `rows.sort((a, b) => b.y - a.y || a.x - b.x)` as a stable sort. -/
def sortRows (rows : List PdfRow) : List PdfRow := rows.foldr insertRowSorted []

/-- The tolerance `lineTol = 2.5`. -/
def lineTol : ℚ := 5 / 2

/-- JavaScript `Math.abs` on exact values. -/
def ratAbs (q : ℚ) : ℚ := if q < 0 then -q else q

/-- One step of the line-grouping loop: the row joins the first line whose
representative `y` is within `lineTol`, else a new line is appended at the
end. -/
def addRowToLines : List PdfLine → PdfRow → List PdfLine
  | [], r => [⟨r.y, [⟨r.x, r.text⟩]⟩]
  | l :: rest, r =>
      if ratAbs (l.y - r.y) ≤ lineTol then ⟨l.y, l.parts ++ [⟨r.x, r.text⟩]⟩ :: rest
      else l :: addRowToLines rest r

/-- The full grouping loop `for (const row of rows)`. -/
def buildLines (rows : List PdfRow) : List PdfLine := rows.foldl addRowToLines []

/-- Stable insertion for the part comparator `(a, b) => a.x - b.x`
(ascending `x`). -/
def insertPartSorted (p : LinePart) : List LinePart → List LinePart
  | [] => [p]
  | q :: rest => if q.x < p.x then q :: insertPartSorted p rest else p :: q :: rest

/-- The sort `line.parts.sort((a, b) => a.x - b.x)` as a stable sort. -/
def sortParts (ps : List LinePart) : List LinePart := ps.foldr insertPartSorted []

/-- The render step `line.parts.sort(...).map((part) => part.text).join(" ")`. -/
def renderLine (l : PdfLine) : String := joinSp ((sortParts l.parts).map LinePart.text)

/-- Rows derived from the page's items. -/
def rowsOfItems (items : List TextItem) : List PdfRow :=
  items.map (fun it => ⟨it.transform.getD 4 0, it.transform.getD 5 0, jsTrimString it.str⟩)

/-- The whole per-page reading-order reconstruction of
`extractPdfTextInReadingOrder` (src/utils/index.ts lines 68–106). -/
def extractPageText (items : List TextItem) : String :=
  joinNl ((buildLines (sortRows (rowsOfItems items))).map renderLine)

/-! ### Retrieval with fallback (src/app/api/ask-question/route.tsx lines 18–46)

Source:
```
const DEFAULT_TRIES = [{topK: 8, threshold: null}, {topK: 12, threshold: 0.3},
                       {topK: 20, threshold: 0.2}];
for (const t of tries) {
  const rpc = t.threshold == null ? "match_document_sections_topk"
                                  : "match_filtered_document_sections";
  const args = t.threshold == null
    ? { query_embedding, top_k: t.topK }
    : { query_embedding, match_threshold: t.threshold, match_count: t.topK };
  const { data, error } = await supabase.rpc(rpc, args);
  if (error) throw new Error(`RPC error (${rpc}): ${error.message}`);
  if (data?.length) return data;
}
return [];
```
The search collaborator is a function from the issued RPC call to
`Except` (an error message) of `Option` (the possibly-null `data`).  The
match-row type is left as a type parameter `M`. -/

/-- Decidable equality for `Except`, so retrieval outcomes can be checked on
concrete inputs. -/
instance {ε α : Type} [DecidableEq ε] [DecidableEq α] : DecidableEq (Except ε α)
  | Except.error e, Except.error f =>
      if h : e = f then isTrue (by rw [h])
      else isFalse (by intro hh; injection hh; contradiction)
  | Except.error _, Except.ok _ => isFalse (by intro hh; exact Except.noConfusion hh)
  | Except.ok _, Except.error _ => isFalse (by intro hh; exact Except.noConfusion hh)
  | Except.ok a, Except.ok b =>
      if h : a = b then isTrue (by rw [h])
      else isFalse (by intro hh; injection hh; contradiction)

/-- One fallback tier: `{ topK, threshold }` with a nullable threshold. -/
structure TryCfg where
  topK : Nat
  threshold : Option ℚ
deriving DecidableEq

/-- The tier list `DEFAULT_TRIES`: unfiltered top-8, then top-12 at 0.3, then top-20
at 0.2. -/
def DEFAULT_TRIES : List TryCfg :=
  [⟨8, none⟩, ⟨12, some (3 / 10)⟩, ⟨20, some (2 / 10)⟩]

/-- The RPC name selected for a tier. -/
def rpcName (t : TryCfg) : String :=
  match t.threshold with
  | none => "match_document_sections_topk"
  | some _ => "match_filtered_document_sections"

/-- The concrete backend call a tier issues (RPC name plus its arguments). -/
structure RpcCall where
  rpc : String
  topK : Nat
  threshold : Option ℚ
deriving DecidableEq

/-- The call issued for one tier. -/
def toCall (t : TryCfg) : RpcCall := ⟨rpcName t, t.topK, t.threshold⟩

/-- The message of the error thrown on a failed RPC. -/
def rpcErrorMsg (t : TryCfg) (e : String) : String :=
  "RPC error (" ++ rpcName t ++ "): " ++ e

/-- The function `retrieveWithFallback` (src/app/api/ask-question/route.tsx lines 24–46). -/
def retrieveWithFallback {M : Type} (search : RpcCall → Except String (Option (List M))) :
    List TryCfg → Except String (List M)
  | [] => Except.ok []
  | t :: rest =>
      match search (toCall t) with
      | Except.error e => Except.error (rpcErrorMsg t e)
      | Except.ok none => retrieveWithFallback search rest
      | Except.ok (some data) =>
          if data.isEmpty then retrieveWithFallback search rest else Except.ok data

/-- Variant of `retrieveWithFallback` instrumented with the sequence of backend calls it
issues (for the never-invoked-tier properties). -/
def retrieveWithFallbackTrace {M : Type}
    (search : RpcCall → Except String (Option (List M))) :
    List TryCfg → Except String (List M) × List RpcCall
  | [] => (Except.ok [], [])
  | t :: rest =>
      match search (toCall t) with
      | Except.error e => (Except.error (rpcErrorMsg t e), [toCall t])
      | Except.ok none =>
          let r := retrieveWithFallbackTrace search rest
          (r.1, toCall t :: r.2)
      | Except.ok (some data) =>
          if data.isEmpty then
            let r := retrieveWithFallbackTrace search rest
            (r.1, toCall t :: r.2)
          else (Except.ok data, [toCall t])

/-! ### Ingestion worker: `POST` (src/app/api/ingest-worker/route.ts lines 91–153)

Source (abridged to the logic after text extraction; extraction exceptions are
caught and turned into `extractedText = ""` before this point, and the
uploading route creates the document with `status: "queued"`):
```
if (extractedText.trim().length) {
  const chunks = splitIntoChunks(extractedText);
  for (let index = 0; index < chunks.length; index++) {
    const chunk = chunks[index];
    const { data } = await openai.embeddings.create({ ..., input: chunk });
    const embedding = data[0]?.embedding;
    if (!embedding) continue;                              // skip this section
    const { error: sectionError } = await supabase.from("document_sections")
      .insert([{ document_id, section_order: index + 1, section_content: chunk,
                 embedding, meta: { source: "upload" } }]);
    if (sectionError)
      throw new Error(sectionError.message || "We could not store the vectorized sections.");
  }
}
return NextResponse.json({ message: "Document stored successfully.", documentId },
                         { status: 200 });
} catch (e) {
  await supabase.from("documents")
    .update({ status: "error", error_message: String(e?.message ?? e) })
    .eq("id", documentId);
  return NextResponse.json({ ok: false }, { status: 500 });
}
```
The embedding provider is a function `String → Option α` (`none` models a
response without an embedding vector, the `continue` path), the section store
a function `DocSection α → Option String` (`some msg` models an insert error
with message `msg`).  The model records the document's status after the run
(the document starts `queued`; the only status write in this handler is the
`catch` branch), the list of sections inserted (in order), and the HTTP
status of the response. -/

/-- Lifecycle status of a document (`documents.status`). -/
inductive DocStatus
  | queued
  | ready
  | error (msg : String)
deriving DecidableEq

/-- A persisted `document_sections` row, with the embedding type abstract. -/
structure DocSection (α : Type) where
  document_id : Nat
  section_order : Nat
  section_content : String
  embedding : α
deriving DecidableEq

/-- The message `sectionError.message || "We could not store the vectorized sections."`:
a falsy (empty) message falls back to the fixed one. -/
def insertFailureMsg (e : String) : String :=
  if e = "" then "We could not store the vectorized sections." else e

/-- The per-chunk loop: returns the sections inserted (in order) and
`some msg` when an insert failed (the thrown error), `none` when the loop
completed.  `index` is the 0-based loop counter; skipped chunks still consume
a `section_order` slot. -/
def runChunks {α : Type} (docId : Nat) (embed : String → Option α)
    (insertSec : DocSection α → Option String) :
    List String → Nat → List (DocSection α) × Option String
  | [], _ => ([], none)
  | chunk :: rest, index =>
      match embed chunk with
      | none => runChunks docId embed insertSec rest (index + 1)
      | some v =>
          let sec : DocSection α := ⟨docId, index + 1, chunk, v⟩
          match insertSec sec with
          | some err => ([], some (insertFailureMsg err))
          | none =>
              let r := runChunks docId embed insertSec rest (index + 1)
              (sec :: r.1, r.2)

/-- Observable outcome of one ingest-worker run. -/
structure IngestResult (α : Type) where
  status : DocStatus
  persisted : List (DocSection α)
  httpStatus : Nat
deriving DecidableEq

/-- The ingest-worker `POST` handler (src/app/api/ingest-worker/route.ts
lines 91–153), starting from the already-extracted text. -/
def ingestWorkerPOST {α : Type} (docId : Nat) (extractedText : String)
    (embed : String → Option α) (insertSec : DocSection α → Option String) :
    IngestResult α :=
  if (jsTrimL extractedText.data).length ≠ 0 then
    match runChunks docId embed insertSec (splitIntoChunks extractedText) 0 with
    | (persisted, some msg) => ⟨DocStatus.error msg, persisted, 500⟩
    | (persisted, none) => ⟨DocStatus.queued, persisted, 200⟩
  else ⟨DocStatus.queued, [], 200⟩

/-- The sections the loop attempts to insert, given which chunks obtain an
embedding: chunk `i` (0-based) of the list yields a section with
`section_order = i + 1` exactly when the provider returns a vector for it. -/
def plannedSections {α : Type} (docId : Nat) (embed : String → Option α) :
    List String → Nat → List (DocSection α)
  | [], _ => []
  | chunk :: rest, index =>
      match embed chunk with
      | none => plannedSections docId embed rest (index + 1)
      | some v => ⟨docId, index + 1, chunk, v⟩ :: plannedSections docId embed rest (index + 1)

/-- A well-formed sentence as produced by the chunker's sentence stage:
non-empty and with no JavaScript whitespace at either end. -/
def goodSent (s : List Char) : Prop :=
  s ≠ [] ∧ (∀ c, s.head? = some c → isJsWs c = false) ∧
    (∀ c, s.getLast? = some c → isJsWs c = false)

/-! ## Helper lemmas -/

theorem mk_data (l : List Char) : (String.mk l).data = l := rfl

theorem head?_dropWhile_not {α : Type} (p : α → Bool) :
    ∀ (l : List α) (c : α), (l.dropWhile p).head? = some c → p c = false := by
  intro l
  induction l with
  | nil => intro c h; simp [List.dropWhile] at h
  | cons a t ih =>
      intro c h
      rw [List.dropWhile_cons] at h
      by_cases ha : p a = true
      · rw [if_pos ha] at h
        exact ih c h
      · rw [if_neg ha] at h
        simp only [List.head?_cons, Option.some.injEq] at h
        subst h
        exact Bool.not_eq_true _ ▸ Bool.of_not_eq_true ha

theorem getLast?_dropWhile_ne_nil {α : Type} (p : α → Bool) :
    ∀ l : List α, l.dropWhile p ≠ [] → (l.dropWhile p).getLast? = l.getLast? := by
  intro l
  induction l with
  | nil => intro h; simp [List.dropWhile] at h
  | cons a t ih =>
      intro h
      rw [List.dropWhile_cons]
      by_cases ha : p a = true
      · rw [List.dropWhile_cons, if_pos ha] at h
        rw [if_pos ha, ih h]
        cases t with
        | nil => simp [List.dropWhile] at h
        | cons b t2 => simp
      · rw [if_neg ha]

theorem jsTrim_good : ∀ l : List Char, jsTrimL l ≠ [] → goodSent (jsTrimL l) := by
  intro l hne
  refine ⟨hne, ?_, ?_⟩
  · intro c hc
    rw [jsTrimL, List.head?_reverse] at hc
    have hy : (l.dropWhile isJsWs).reverse.dropWhile isJsWs ≠ [] := by
      intro h0
      rw [jsTrimL, h0] at hne
      exact hne rfl
    rw [getLast?_dropWhile_ne_nil isJsWs _ hy, List.getLast?_reverse] at hc
    exact head?_dropWhile_not isJsWs l c hc
  · intro c hc
    rw [jsTrimL, List.getLast?_reverse] at hc
    exact head?_dropWhile_not isJsWs _ c hc

theorem good_trim_fix : ∀ l : List Char, goodSent l → jsTrimL l = l := by
  intro l hgood
  obtain ⟨hne, hhead, hlast⟩ := hgood
  have h1 : l.dropWhile isJsWs = l := by
    cases l with
    | nil => exact absurd rfl hne
    | cons a t =>
        rw [List.dropWhile_cons]
        have := hhead a rfl
        simp [this]
  rw [jsTrimL, h1]
  have h2 : l.reverse.dropWhile isJsWs = l.reverse := by
    cases hr : l.reverse with
    | nil => rfl
    | cons a t =>
        rw [List.dropWhile_cons]
        have ha : l.getLast? = some a := by
          rw [← List.head?_reverse, hr]; rfl
        have := hlast a ha
        simp [this]
  rw [h2, List.reverse_reverse]

theorem retrieveWithFallbackTrace_fst {M : Type}
    (search : RpcCall → Except String (Option (List M))) :
    ∀ ts : List TryCfg,
      (retrieveWithFallbackTrace search ts).1 = retrieveWithFallback search ts := by
  intro ts
  induction ts with
  | nil => rfl
  | cons t rest ih =>
      simp only [retrieveWithFallbackTrace, retrieveWithFallback]
      cases h : search (toCall t) with
      | error e => rfl
      | ok d =>
          cases d with
          | none => simpa using ih
          | some data =>
              by_cases hd : data.isEmpty
              · simp [hd, ih]
              · simp [hd]

theorem retrieveTrace_skip {M : Type}
    (search : RpcCall → Except String (Option (List M))) (t : TryCfg) (ts : List TryCfg)
    (h : search (toCall t) = Except.ok (some []) ∨ search (toCall t) = Except.ok none) :
    retrieveWithFallbackTrace search (t :: ts)
      = ((retrieveWithFallbackTrace search ts).1,
         toCall t :: (retrieveWithFallbackTrace search ts).2) := by
  rcases h with h | h <;> simp [retrieveWithFallbackTrace, h, List.isEmpty]

theorem retrieveTrace_skip_all {M : Type}
    (search : RpcCall → Except String (Option (List M))) :
    ∀ earlier : List TryCfg,
      (∀ t2 ∈ earlier, search (toCall t2) = Except.ok (some [])
          ∨ search (toCall t2) = Except.ok none) →
      ∀ ts : List TryCfg,
        retrieveWithFallbackTrace search (earlier ++ ts)
          = ((retrieveWithFallbackTrace search ts).1,
             earlier.map toCall ++ (retrieveWithFallbackTrace search ts).2) := by
  intro earlier
  induction earlier with
  | nil => intro _ ts; simp
  | cons t rest ih =>
      intro h ts
      have ht := h t (by simp)
      have hrest : ∀ t2 ∈ rest, search (toCall t2) = Except.ok (some [])
          ∨ search (toCall t2) = Except.ok none := by
        intro t2 h2; exact h t2 (by simp [h2])
      calc retrieveWithFallbackTrace search (t :: (rest ++ ts))
          = ((retrieveWithFallbackTrace search (rest ++ ts)).1,
             toCall t :: (retrieveWithFallbackTrace search (rest ++ ts)).2) :=
            retrieveTrace_skip search t (rest ++ ts) ht
        _ = _ := by rw [ih hrest ts]; simp

theorem joinSpL_single (s : List Char) : joinSpL [s] = s := rfl

theorem joinSpL_cons2 (a b : List Char) (r : List (List Char)) :
    joinSpL (a :: b :: r) = a ++ ' ' :: joinSpL (b :: r) := rfl

theorem joinSpL_concat :
    ∀ (g : List (List Char)), g ≠ [] → ∀ s, joinSpL (g ++ [s]) = joinSpL g ++ ' ' :: s := by
  intro g
  induction g with
  | nil => intro h; exact absurd rfl h
  | cons a t ih =>
      intro _ s
      cases t with
      | nil => rfl
      | cons b t2 =>
          show joinSpL (a :: ((b :: t2) ++ [s])) = (a ++ ' ' :: joinSpL (b :: t2)) ++ ' ' :: s
          have h1 : joinSpL (a :: ((b :: t2) ++ [s]))
              = a ++ ' ' :: joinSpL ((b :: t2) ++ [s]) := rfl
          rw [h1, ih (by simp) s]
          simp

theorem joinSpL_ne_nil :
    ∀ g : List (List Char), g ≠ [] → (∀ s ∈ g, s ≠ []) → joinSpL g ≠ [] := by
  intro g hg hmem
  cases g with
  | nil => exact absurd rfl hg
  | cons a t =>
      cases t with
      | nil => exact hmem a (by simp)
      | cons b t2 =>
          rw [joinSpL_cons2]
          simp

theorem good_joinSpL :
    ∀ g : List (List Char), g ≠ [] → (∀ s ∈ g, goodSent s) → goodSent (joinSpL g) := by
  intro g
  induction g with
  | nil => intro h; exact absurd rfl h
  | cons a t ih =>
      intro _ hmem
      cases t with
      | nil => exact hmem a (by simp)
      | cons b t2 =>
          have ga : goodSent a := hmem a (by simp)
          have gj : goodSent (joinSpL (b :: t2)) :=
            ih (by simp) (fun s hs => hmem s (by simp [hs]))
          rw [joinSpL_cons2]
          obtain ⟨hane, hahead, halast⟩ := ga
          obtain ⟨hjne, hjhead, hjlast⟩ := gj
          refine ⟨by simp [hane], ?_, ?_⟩
          · intro c hc
            rw [List.head?_append] at hc
            cases a with
            | nil => exact absurd rfl hane
            | cons a0 as =>
                have : a0 = c := by simpa using hc
                subst this
                exact hahead a0 rfl
          · intro c hc
            rw [List.getLast?_append] at hc
            cases hj : joinSpL (b :: t2) with
            | nil => exact absurd hj hjne
            | cons j0 js =>
                rw [hj] at hc
                rw [List.getLast?_cons_cons] at hc
                cases hlast2 : (j0 :: js).getLast? with
                | none =>
                    rw [List.getLast?_eq_none_iff] at hlast2
                    exact List.noConfusion hlast2
                | some x =>
                    rw [hlast2, Option.or_some] at hc
                    have hx : x = c := by simpa using hc
                    subst hx
                    exact hjlast x (hj ▸ hlast2)

theorem jsLen_append_space (a b : List Char) :
    jsLen (a ++ ' ' :: b) = jsLen a + 1 + jsLen b := by
  have hsp : utf16Units ' ' = 1 := by decide
  simp [jsLen, List.map_append, List.sum_append, hsp]
  omega

theorem sentences_good :
    ∀ (l : List Char) (s : List Char), s ∈ sentencesCore l → goodSent s := by
  intro l s hs
  rw [sentencesCore, List.mem_flatten] at hs
  obtain ⟨x, hx, hsx⟩ := hs
  rw [List.mem_map] at hx
  obtain ⟨p, _, hp⟩ := hx
  subst hp
  rw [sentencesOfPara, List.mem_filter] at hsx
  obtain ⟨hmem, hne⟩ := hsx
  rw [List.mem_map] at hmem
  obtain ⟨raw, _, hraw⟩ := hmem
  subst hraw
  exact jsTrim_good raw (by simpa using hne)

theorem buildChunks_nil (maxChunkSize : Nat) (cur : List Char) :
    buildChunks maxChunkSize [] cur = if jsTrimL cur ≠ [] then [cur] else [] := rfl

theorem buildChunks_cons (maxChunkSize : Nat) (s : List Char) (rest : List (List Char))
    (cur : List Char) :
    buildChunks maxChunkSize (s :: rest) cur =
      if cur = [] then buildChunks maxChunkSize rest s
      else if jsLen cur + 1 + jsLen s ≤ maxChunkSize then
        buildChunks maxChunkSize rest (cur ++ ' ' :: s)
      else cur :: buildChunks maxChunkSize rest s := rfl

theorem buildChunks_split (maxChunkSize : Nat) :
    ∀ ss g : List (List Char), g ≠ [] → (∀ s ∈ g, goodSent s) → (∀ s ∈ ss, goodSent s) →
      ∃ g1 gs, (g1 :: gs).flatten = ss ∧ (∀ h2 ∈ gs, h2 ≠ []) ∧
        buildChunks maxChunkSize ss (joinSpL g)
          = joinSpL (g ++ g1) :: gs.map joinSpL := by
  intro ss
  induction ss with
  | nil =>
      intro g hg hgood _
      refine ⟨[], [], by simp, by simp, ?_⟩
      have hj : goodSent (joinSpL g) := good_joinSpL g hg hgood
      have htrim : jsTrimL (joinSpL g) = joinSpL g := good_trim_fix _ hj
      have hne2 : jsTrimL (joinSpL g) ≠ [] := by rw [htrim]; exact hj.1
      rw [buildChunks_nil, if_pos hne2]
      simp
  | cons s rest ih =>
      intro g hg hgood hss
      have hsgood : goodSent s := hss s (by simp)
      have hrest : ∀ s2 ∈ rest, goodSent s2 := fun s2 h2 => hss s2 (by simp [h2])
      have hj : goodSent (joinSpL g) := good_joinSpL g hg hgood
      by_cases hfit : jsLen (joinSpL g) + 1 + jsLen s ≤ maxChunkSize
      · have hgs : ∀ s2 ∈ g ++ [s], goodSent s2 := by
          intro s2 h2
          rcases List.mem_append.mp h2 with h2 | h2
          · exact hgood s2 h2
          · simp at h2; subst h2; exact hsgood
        obtain ⟨g1, gs, hflat, hne, heq⟩ := ih (g ++ [s]) (by simp) hgs hrest
        refine ⟨s :: g1, gs, ?_, hne, ?_⟩
        · simp only [List.flatten_cons] at hflat ⊢
          simp [hflat]
        · rw [buildChunks_cons, if_neg hj.1, if_pos hfit,
            ← joinSpL_concat g hg s, heq]
          simp [List.append_assoc]
      · obtain ⟨g1, gs, hflat, hne, heq⟩ := ih [s] (by simp)
          (by intro s2 h2; simp at h2; subst h2; exact hsgood) hrest
        refine ⟨[], (s :: g1) :: gs, ?_, ?_, ?_⟩
        · simp only [List.flatten_cons] at hflat ⊢
          simp [hflat]
        · intro h2 hh2
          rcases List.mem_cons.mp hh2 with hh2 | hh2
          · subst hh2; simp
          · exact hne h2 hh2
        · rw [buildChunks_cons, if_neg hj.1, if_neg hfit]
          have hrw : buildChunks maxChunkSize rest s
              = buildChunks maxChunkSize rest (joinSpL [s]) := rfl
          rw [hrw, heq]
          simp

theorem buildChunks_partition (maxChunkSize : Nat) :
    ∀ ss : List (List Char), (∀ s ∈ ss, goodSent s) →
      ∃ groups : List (List (List Char)), groups.flatten = ss ∧
        (∀ g ∈ groups, g ≠ []) ∧
        buildChunks maxChunkSize ss [] = groups.map joinSpL := by
  intro ss hss
  cases ss with
  | nil => exact ⟨[], by simp, by simp, rfl⟩
  | cons s rest =>
      have hsgood : goodSent s := hss s (by simp)
      have hrest : ∀ s2 ∈ rest, goodSent s2 := fun s2 h2 => hss s2 (by simp [h2])
      obtain ⟨g1, gs, hflat, hne, heq⟩ := buildChunks_split maxChunkSize rest [s]
        (by simp) (by intro s2 h2; simp at h2; subst h2; exact hsgood) hrest
      refine ⟨(s :: g1) :: gs, ?_, ?_, ?_⟩
      · simp only [List.flatten_cons] at hflat ⊢
        simp [hflat]
      · intro g hg
        rcases List.mem_cons.mp hg with hg | hg
        · subst hg; simp
        · exact hne g hg
      · rw [buildChunks_cons, if_pos rfl]
        have hrw : buildChunks maxChunkSize rest s
            = buildChunks maxChunkSize rest (joinSpL [s]) := rfl
        rw [hrw, heq]
        simp

theorem buildChunks_size (maxChunkSize : Nat) (S : List (List Char)) :
    ∀ (ss : List (List Char)) (cur : List Char),
      (∀ s ∈ ss, s ∈ S) → (cur = [] ∨ jsLen cur ≤ maxChunkSize ∨ cur ∈ S) →
      ∀ c ∈ buildChunks maxChunkSize ss cur,
        jsLen c ≤ maxChunkSize ∨ (c ∈ S ∧ maxChunkSize < jsLen c) := by
  intro ss
  induction ss with
  | nil =>
      intro cur _ hcur c hc
      rw [buildChunks_nil] at hc
      by_cases h : jsTrimL cur ≠ []
      · rw [if_pos h] at hc
        simp at hc
        subst hc
        rcases hcur with hcur | hcur | hcur
        · subst hcur; exact absurd rfl h
        · exact Or.inl hcur
        · by_cases hlt : maxChunkSize < jsLen c
          · exact Or.inr ⟨hcur, hlt⟩
          · exact Or.inl (not_lt.mp hlt)
      · rw [if_neg h] at hc
        simp at hc
  | cons s rest ih =>
      intro cur hss hcur c hc
      have hsS : s ∈ S := hss s (by simp)
      have hrest : ∀ s2 ∈ rest, s2 ∈ S := fun s2 h2 => hss s2 (by simp [h2])
      rw [buildChunks_cons] at hc
      by_cases hc0 : cur = []
      · rw [if_pos hc0] at hc
        exact ih s hrest (Or.inr (Or.inr hsS)) c hc
      · rw [if_neg hc0] at hc
        by_cases hfit : jsLen cur + 1 + jsLen s ≤ maxChunkSize
        · rw [if_pos hfit] at hc
          refine ih (cur ++ ' ' :: s) hrest (Or.inr (Or.inl ?_)) c hc
          rw [jsLen_append_space]
          exact hfit
        · rw [if_neg hfit] at hc
          rcases List.mem_cons.mp hc with hc | hc
          · subst hc
            rcases hcur with hcur | hcur | hcur
            · exact absurd hcur hc0
            · exact Or.inl hcur
            · by_cases hlt : maxChunkSize < jsLen c
              · exact Or.inr ⟨hcur, hlt⟩
              · exact Or.inl (not_lt.mp hlt)
          · exact ih s hrest (Or.inr (Or.inr hsS)) c hc

/-! ## Claim theorems -/

/-- Claim C5: For every input text and every `maxChunkSize > 0`, every chunk the
chunker produces has (JavaScript) length at most `maxChunkSize`, except that a
chunk may be a single sentence of the sentence stream whose own length exceeds
`maxChunkSize` — such a sentence stands alone and is never split. -/
theorem chunk_size_bound :
    ∀ (text : String) (maxChunkSize : Nat), 0 < maxChunkSize →
      ∀ c ∈ splitIntoChunks text maxChunkSize,
        jsLenStr c ≤ maxChunkSize ∨
          (c ∈ sentenceStream text ∧ maxChunkSize < jsLenStr c) := by
  intro text maxChunkSize _ c hc
  rw [splitIntoChunks, List.mem_map] at hc
  obtain ⟨l, hl, rfl⟩ := hc
  have hmain := buildChunks_size maxChunkSize (sentencesCore text.data)
    (sentencesCore text.data) [] (fun _ h => h) (Or.inl rfl) l hl
  rcases hmain with h | ⟨hmem, hlt⟩
  · exact Or.inl h
  · exact Or.inr ⟨List.mem_map_of_mem String.mk hmem, hlt⟩

/-- Witness for C5 at `"Hi there. Bye."` with budget 300 (the single produced
chunk, of length 14). -/
theorem chunk_size_bound_witness :
    jsLenStr "Hi there. Bye." ≤ 300 ∨
      ("Hi there. Bye." ∈ sentenceStream "Hi there. Bye." ∧
        300 < jsLenStr "Hi there. Bye.") :=
  chunk_size_bound "Hi there. Bye." 300 (by decide) "Hi there. Bye." (by decide)

/-- Claim C6: For every non-empty text and `maxChunkSize > 0`, the chunker's
output is exactly a partition of the sentence stream into consecutive
non-empty groups, each chunk being its group joined with single spaces — so
concatenating the chunks (one space between merged sentences) reproduces the
sentence stream with no sentence dropped, reordered, or altered. -/
theorem chunk_concat_faithful :
    ∀ (text : String) (maxChunkSize : Nat), text ≠ "" → 0 < maxChunkSize →
      ∃ groups : List (List String),
        groups.flatten = sentenceStream text ∧ (∀ g ∈ groups, g ≠ []) ∧
        splitIntoChunks text maxChunkSize = groups.map joinSp := by
  intro text maxChunkSize _ _
  obtain ⟨groupsL, hflat, hne, heq⟩ := buildChunks_partition maxChunkSize
    (sentencesCore text.data) (sentences_good text.data)
  refine ⟨groupsL.map (List.map String.mk), ?_, ?_, ?_⟩
  · rw [← List.map_flatten, hflat]
    rfl
  · intro g hg
    rw [List.mem_map] at hg
    obtain ⟨h, hh, rfl⟩ := hg
    simpa using hne h hh
  · rw [splitIntoChunks, heq, List.map_map, List.map_map]
    apply List.map_congr_left
    intro h hh
    show String.mk (joinSpL h) = joinSp (h.map String.mk)
    rw [joinSp, List.map_map]
    have hid : h.map (String.data ∘ String.mk) = h := by
      simp [Function.comp_def, mk_data]
    rw [hid]

/-- Witness for C6 at `"Hi. Yo."` with budget 300. -/
theorem chunk_concat_faithful_witness :
    ∃ groups : List (List String),
      groups.flatten = sentenceStream "Hi. Yo." ∧ (∀ g ∈ groups, g ≠ []) ∧
      splitIntoChunks "Hi. Yo." 300 = groups.map joinSp :=
  chunk_concat_faithful "Hi. Yo." 300 (by decide) (by decide)

/-- Claim C10: For every input string and every `maxChunkSize`, every chunk in
the output is non-empty and free of leading/trailing (JavaScript) whitespace:
it is exactly one or more trimmed, non-empty sentences of the sentence
stream joined by single spaces. -/
theorem chunk_wellformed :
    ∀ (text : String) (maxChunkSize : Nat) (c : String),
      c ∈ splitIntoChunks text maxChunkSize →
      c ≠ "" ∧ jsTrimString c = c ∧
        ∃ g : List String, g ≠ [] ∧
          (∀ s ∈ g, s ∈ sentenceStream text ∧ s ≠ "" ∧ jsTrimString s = s) ∧
          c = joinSp g := by
  intro text maxChunkSize c hc
  obtain ⟨groupsL, hflat, hne, heq⟩ := buildChunks_partition maxChunkSize
    (sentencesCore text.data) (sentences_good text.data)
  rw [splitIntoChunks, heq, List.map_map, List.mem_map] at hc
  obtain ⟨h, hh, rfl⟩ := hc
  have hmemgood : ∀ s ∈ h, goodSent s := by
    intro s hs
    apply sentences_good text.data
    rw [← hflat]
    exact List.mem_flatten_of_mem hh hs
  have hhne : h ≠ [] := hne h hh
  have hgoodj : goodSent (joinSpL h) := good_joinSpL h hhne hmemgood
  refine ⟨?_, ?_, h.map String.mk, ?_, ?_, ?_⟩
  · intro h0
    exact hgoodj.1 (congrArg String.data h0)
  · show String.mk (jsTrimL (joinSpL h)) = String.mk (joinSpL h)
    rw [good_trim_fix _ hgoodj]
  · simpa using hhne
  · intro s hs
    rw [List.mem_map] at hs
    obtain ⟨l, hl, rfl⟩ := hs
    have hgood := hmemgood l hl
    refine ⟨?_, ?_, ?_⟩
    · apply List.mem_map_of_mem
      rw [← hflat]
      exact List.mem_flatten_of_mem hh hl
    · intro h0
      exact hgood.1 (congrArg String.data h0)
    · show String.mk (jsTrimL l) = String.mk l
      rw [good_trim_fix l hgood]
  · show String.mk (joinSpL h) = joinSp (h.map String.mk)
    rw [joinSp, List.map_map]
    have hid : h.map (String.data ∘ String.mk) = h := by
      simp [Function.comp_def, mk_data]
    rw [hid]

/-- Witness for C10 at `"Ok then. Go!"` (two sentences merged into one
chunk). -/
theorem chunk_wellformed_witness :
    "Ok then. Go!" ≠ "" ∧ jsTrimString "Ok then. Go!" = "Ok then. Go!" ∧
      ∃ g : List String, g ≠ [] ∧
        (∀ s ∈ g, s ∈ sentenceStream "Ok then. Go!" ∧ s ≠ "" ∧ jsTrimString s = s) ∧
        "Ok then. Go!" = joinSp g :=
  chunk_wellformed "Ok then. Go!" 300 "Ok then. Go!" (by decide)

/-- Claim C7: Retrieval tries the tiers strictly in order; the default tiers are
`{topK 8, no threshold}`, `{topK 12, threshold 0.3}`, `{topK 20,
threshold 0.2}`; the first tier whose backend call yields a non-empty result
set is returned immediately and no later tier's call is issued (in
particular, a non-empty tier 1 means tiers 2 and 3 are never invoked); and if
every tier yields an empty (or null) result the engine returns the empty
sequence without an error. -/
theorem retrieval_fallback_tiers :
    DEFAULT_TRIES = [⟨8, none⟩, ⟨12, some (3 / 10)⟩, ⟨20, some (2 / 10)⟩] ∧
    (∀ (M : Type) (search : RpcCall → Except String (Option (List M)))
        (earlier later : List TryCfg) (t : TryCfg) (l : List M),
        (∀ t2 ∈ earlier, search (toCall t2) = Except.ok (some [])
            ∨ search (toCall t2) = Except.ok none) →
        search (toCall t) = Except.ok (some l) → l ≠ [] →
        retrieveWithFallbackTrace search (earlier ++ t :: later)
            = (Except.ok l, earlier.map toCall ++ [toCall t]) ∧
          retrieveWithFallback search (earlier ++ t :: later) = Except.ok l) ∧
    (∀ (M : Type) (search : RpcCall → Except String (Option (List M)))
        (ts : List TryCfg),
        (∀ t ∈ ts, search (toCall t) = Except.ok (some [])
            ∨ search (toCall t) = Except.ok none) →
        retrieveWithFallbackTrace search ts = (Except.ok [], ts.map toCall) ∧
          retrieveWithFallback search ts = Except.ok []) := by
  refine ⟨rfl, ?_, ?_⟩
  · intro M search earlier later t l hearlier ht hl
    have hhit : retrieveWithFallbackTrace search (t :: later) = (Except.ok l, [toCall t]) := by
      have : l.isEmpty = false := by
        cases l with
        | nil => exact absurd rfl hl
        | cons a as => rfl
      simp [retrieveWithFallbackTrace, ht, this]
    have := retrieveTrace_skip_all search earlier hearlier (t :: later)
    rw [hhit] at this
    refine ⟨this, ?_⟩
    have hfst := retrieveWithFallbackTrace_fst search (earlier ++ t :: later)
    rw [this] at hfst
    exact hfst.symm
  · intro M search ts hts
    have htrace : retrieveWithFallbackTrace search ts = (Except.ok [], ts.map toCall) := by
      have := retrieveTrace_skip_all search ts hts []
      simpa [retrieveWithFallbackTrace] using this
    refine ⟨htrace, ?_⟩
    have hfst := retrieveWithFallbackTrace_fst search ts
    rw [htrace] at hfst
    exact hfst.symm

/-- Witness for C7: with a backend whose tier-1 call returns `[3]` and all
other calls return empty, the engine returns `[3]` having issued only the
tier-1 call. -/
theorem retrieval_fallback_tiers_witness :
    retrieveWithFallbackTrace
        (fun c => if c.topK = 8 then Except.ok (some [3])
                  else Except.ok (some ([] : List Nat)))
        DEFAULT_TRIES
      = (Except.ok [3], [toCall ⟨8, none⟩]) := by
  have h := (retrieval_fallback_tiers.2.1 Nat
      (fun c => if c.topK = 8 then Except.ok (some [3])
                else Except.ok (some ([] : List Nat)))
      [] [⟨12, some (3 / 10)⟩, ⟨20, some (2 / 10)⟩] ⟨8, none⟩ [3]
      (by simp) rfl (by simp)).1
  simpa [DEFAULT_TRIES] using h

/-- Claim C8: If the search collaborator returns an error for the call of some
tier (all earlier tiers having come back empty), retrieval propagates that
error immediately: the result is the error, the failing tier's call is the
last call issued (no retry, no later tier), and the error is not treated as
an empty result. -/
theorem retrieval_error_propagates :
    ∀ (M : Type) (search : RpcCall → Except String (Option (List M)))
      (earlier later : List TryCfg) (t : TryCfg) (e : String),
      (∀ t2 ∈ earlier, search (toCall t2) = Except.ok (some [])
          ∨ search (toCall t2) = Except.ok none) →
      search (toCall t) = Except.error e →
      retrieveWithFallbackTrace search (earlier ++ t :: later)
          = (Except.error (rpcErrorMsg t e), earlier.map toCall ++ [toCall t]) ∧
        retrieveWithFallback search (earlier ++ t :: later)
          = Except.error (rpcErrorMsg t e) := by
  intro M search earlier later t e hearlier ht
  have hhit : retrieveWithFallbackTrace search (t :: later)
      = (Except.error (rpcErrorMsg t e), [toCall t]) := by
    simp [retrieveWithFallbackTrace, ht]
  have htrace := retrieveTrace_skip_all search earlier hearlier (t :: later)
  rw [hhit] at htrace
  refine ⟨htrace, ?_⟩
  have hfst := retrieveWithFallbackTrace_fst search (earlier ++ t :: later)
  rw [htrace] at hfst
  exact hfst.symm

/-- Witness for C8: tier 1 comes back empty, tier 2's RPC fails with message
"down"; the engine stops with the wrapped error after exactly the two calls. -/
theorem retrieval_error_propagates_witness :
    retrieveWithFallbackTrace
        (fun c => if c.rpc = "match_filtered_document_sections"
                  then Except.error "down"
                  else Except.ok (some ([] : List Nat)))
        DEFAULT_TRIES
      = (Except.error (rpcErrorMsg ⟨12, some (3 / 10)⟩ "down"),
         [toCall ⟨8, none⟩, toCall ⟨12, some (3 / 10)⟩]) := by
  have h := (retrieval_error_propagates Nat
      (fun c => if c.rpc = "match_filtered_document_sections"
                then Except.error "down"
                else Except.ok (some ([] : List Nat)))
      [⟨8, none⟩] [⟨20, some (2 / 10)⟩] ⟨12, some (3 / 10)⟩ "down"
      (by intro t2 h2; simp at h2; subst h2; left; rfl) rfl).1
  simpa [DEFAULT_TRIES] using h

theorem runChunks_stops {α : Type} (docId : Nat) (embed : String → Option α)
    (insertSec : DocSection α → Option String) :
    ∀ (chunks : List String) (index : Nat) (pre : List (DocSection α))
      (s : DocSection α) (post : List (DocSection α)) (e : String),
      plannedSections docId embed chunks index = pre ++ s :: post →
      (∀ s2 ∈ pre, insertSec s2 = none) →
      insertSec s = some e →
      runChunks docId embed insertSec chunks index = (pre, some (insertFailureMsg e)) := by
  intro chunks
  induction chunks with
  | nil =>
      intro index pre s post e hplan _ _
      simp [plannedSections] at hplan
  | cons chunk rest ih =>
      intro index pre s post e hplan hpre hfail
      cases hembed : embed chunk with
      | none =>
          rw [plannedSections, hembed] at hplan
          simpa [runChunks, hembed] using ih (index + 1) pre s post e hplan hpre hfail
      | some v =>
          rw [plannedSections, hembed] at hplan
          cases pre with
          | nil =>
              simp only [List.nil_append, List.cons.injEq] at hplan
              obtain ⟨h1, h2⟩ := hplan
              subst h1
              simp [runChunks, hembed, hfail]
          | cons p pre2 =>
              simp only [List.cons_append, List.cons.injEq] at hplan
              obtain ⟨h1, h2⟩ := hplan
              subst h1
              have hp : insertSec (⟨docId, index + 1, chunk, v⟩ : DocSection α) = none :=
                hpre _ (by simp)
              have hrec := ih (index + 1) pre2 s post e h2
                (fun s2 hs2 => hpre s2 (by simp [hs2])) hfail
              simp [runChunks, hembed, hp, hrec]

/-- Claim C1 counterexample: On whitespace-only extracted text the worker does
*not* mark the document `error` with "no extractable text": the status write
never happens (the document stays `queued`), the response is a 200, and zero
sections are persisted. -/
theorem ingest_empty_text_cex :
    (ingestWorkerPOST 1 "   " (fun _ => some (0 : Nat)) (fun _ => none)).status
        ≠ DocStatus.error "no extractable text" ∧
      (ingestWorkerPOST 1 "   " (fun _ => some (0 : Nat)) (fun _ => none)).status
        = DocStatus.queued ∧
      (ingestWorkerPOST 1 "   " (fun _ => some (0 : Nat)) (fun _ => none)).persisted
        = [] := by
  decide

/-- Claim C1, amended: For every ingestion run whose extracted text is empty or
whitespace-only after trimming, the worker stops before chunking and persists
zero Document Sections, and the document is never marked `ready` — but no
`error` status is recorded either: the document's status is left unchanged
(it remains `queued`) and the handler answers 200. -/
theorem ingest_empty_text_amended :
    ∀ (α : Type) (docId : Nat) (extractedText : String)
      (embed : String → Option α) (insertSec : DocSection α → Option String),
      jsTrimString extractedText = "" →
      ingestWorkerPOST docId extractedText embed insertSec
          = ⟨DocStatus.queued, [], 200⟩ ∧
        (∀ m, DocStatus.queued ≠ DocStatus.error m) ∧
        DocStatus.queued ≠ DocStatus.ready := by
  intro α docId extractedText embed insertSec h
  have hdata : jsTrimL extractedText.data = [] := congrArg String.data h
  refine ⟨?_, by intro m h2; exact DocStatus.noConfusion h2,
    by intro h2; exact DocStatus.noConfusion h2⟩
  simp [ingestWorkerPOST, hdata]

/-- Witness for the amended C1. -/
theorem ingest_empty_text_amended_witness :
    ingestWorkerPOST 2 " \t\n " (fun _ => some (0 : Nat)) (fun _ => none)
        = ⟨DocStatus.queued, [], 200⟩ ∧
      (∀ m, DocStatus.queued ≠ DocStatus.error m) ∧
      DocStatus.queued ≠ DocStatus.ready :=
  ingest_empty_text_amended Nat 2 " \t\n " (fun _ => some (0 : Nat)) (fun _ => none)
    (by decide)

/-- Claim C2, the code bug: A run that extracts text and processes every chunk
without any persistence error does *not* end with the document marked
`ready`: the worker has no success-path status write at all, so the document
stays `queued` (the repository README promises the record "flips to ready"). -/
theorem ingest_success_leaves_status_queued :
    ingestWorkerPOST 1 "Hello." (fun _ => some (0 : Nat)) (fun _ => none)
        = ⟨DocStatus.queued, [⟨1, 1, "Hello.", 0⟩], 200⟩ ∧
      DocStatus.queued ≠ DocStatus.ready := by
  constructor
  · decide
  · intro h; exact DocStatus.noConfusion h

/-- Claim C9: If persisting the section of some chunk fails (all sections
attempted before it having succeeded), the run stops immediately: the
document ends in status `error` carrying the insert error message, the
response is a 500, and exactly the sections persisted before the failing one
remain stored — the partial write is visible, not rolled back. -/
theorem ingest_insert_failure_stops :
    ∀ (α : Type) (docId : Nat) (extractedText : String)
      (embed : String → Option α) (insertSec : DocSection α → Option String)
      (pre : List (DocSection α)) (s : DocSection α) (post : List (DocSection α))
      (e : String),
      jsTrimString extractedText ≠ "" →
      plannedSections docId embed (splitIntoChunks extractedText) 0
        = pre ++ s :: post →
      (∀ s2 ∈ pre, insertSec s2 = none) →
      insertSec s = some e →
      ingestWorkerPOST docId extractedText embed insertSec
        = ⟨DocStatus.error (insertFailureMsg e), pre, 500⟩ := by
  intro α docId extractedText embed insertSec pre s post e hne hplan hpre hfail
  have hlen : (jsTrimL extractedText.data).length ≠ 0 := by
    intro h0
    exact hne (congrArg String.mk (List.length_eq_zero.mp h0))
  have hrun := runChunks_stops docId embed insertSec (splitIntoChunks extractedText) 0
    pre s post e hplan hpre hfail
  simp [ingestWorkerPOST, hlen, hrun]

set_option maxRecDepth 100000 in
/-- Witness for C9: a text that chunks into three over-length sentences, an
embedding provider that answers every chunk, and a section store that fails
exactly on `section_order = 2`: the run ends `error`/500 with only chunk 1's
section persisted. -/
theorem ingest_insert_failure_stops_witness :
    ingestWorkerPOST 1
        (String.mk (List.replicate 150 'a' ++ '.' :: ' ' ::
          List.replicate 150 'b' ++ '.' :: ' ' :: List.replicate 150 'c' ++ ['.']))
        (fun _ => some (0 : Nat))
        (fun s => if s.section_order = 2 then some "boom" else none)
      = ⟨DocStatus.error (insertFailureMsg "boom"),
         [⟨1, 1, String.mk (List.replicate 150 'a' ++ ['.']), 0⟩], 500⟩ :=
  ingest_insert_failure_stops Nat 1
    (String.mk (List.replicate 150 'a' ++ '.' :: ' ' ::
      List.replicate 150 'b' ++ '.' :: ' ' :: List.replicate 150 'c' ++ ['.']))
    (fun _ => some (0 : Nat))
    (fun s => if s.section_order = 2 then some "boom" else none)
    [⟨1, 1, String.mk (List.replicate 150 'a' ++ ['.']), 0⟩]
    ⟨1, 2, String.mk (List.replicate 150 'b' ++ ['.']), 0⟩
    [⟨1, 3, String.mk (List.replicate 150 'c' ++ ['.']), 0⟩]
    "boom" (by decide) (by decide) (by decide) (by decide)

/-- Claim C4 counterexample: `sanitizeText` does not *remove* the control
characters: it replaces them with a space. On `"a\u0000b"` the claimed
normalization yields `"ab"`, the code yields `"a b"`. -/
theorem sanitize_removal_cex :
    sanitizeText "a\u0000b" ≠ normalizeSpecRemoving "a\u0000b" ∧
      sanitizeText "a\u0000b" = "a b" ∧
      normalizeSpecRemoving "a\u0000b" = "ab" := by
  refine ⟨?_, by decide, by decide⟩
  decide

/-- Claim C4, amended: For every input string, `sanitizeText` equals the
normalization that *replaces with a single space* (rather than removes) every
ASCII C0 control other than tab/LF/CR and every character in U+007F..U+009F
(the code's range also covers DEL), replaces U+FFFD by a space, and trims the
result; it is total (a Lean function) and in particular errors on no input. -/
theorem sanitize_replaces_controls :
    ∀ input : String, sanitizeText input = normalizeSpecReplacing input := by
  intro input
  have hpt : ∀ c : Char,
      replaceFFFD (sanitizeChar c)
        = if isControlStripped c.toNat then ' ' else replaceFFFD c := by
    intro c
    by_cases h : isControlStripped c.toNat
    · simp only [sanitizeChar, h, if_true]
      decide
    · simp [sanitizeChar, h]
  show String.mk (jsTrimL ((input.data.map sanitizeChar).map replaceFFFD)) = _
  rw [List.map_map]
  have : (replaceFFFD ∘ sanitizeChar)
      = fun c => if isControlStripped c.toNat then ' ' else replaceFFFD c :=
    funext hpt
  rw [this]
  rfl

theorem addRowToLines_new_iff (lines : List PdfLine) (r : PdfRow) :
    addRowToLines lines r = lines ++ [⟨r.y, [⟨r.x, r.text⟩]⟩] ↔
      ∀ l ∈ lines, lineTol < ratAbs (l.y - r.y) := by
  induction lines with
  | nil => simp [addRowToLines]
  | cons l rest ih =>
      by_cases h : ratAbs (l.y - r.y) ≤ lineTol
      · have hlen : (addRowToLines (l :: rest) r).length = rest.length + 1 := by
          simp [addRowToLines, h]
        apply iff_of_false
        · intro heq
          rw [heq] at hlen
          simp at hlen
        · intro hall
          exact absurd (hall l (by simp)) (not_lt.mpr h)
      · simp only [addRowToLines, if_neg h, List.cons_append, List.cons.injEq,
          true_and, List.mem_cons]
        rw [ih]
        constructor
        · intro hall l2 h2
          rcases h2 with h2 | h2
          · subst h2; exact not_le.mp h
          · exact hall l2 h2
        · intro hall l2 h2
          exact hall l2 (Or.inr h2)

/-- Claim C3: The per-page reading-order reconstruction — sort by descending `y`
then ascending `x`, group into lines by the 2.5-unit tolerance against each
discovered line's representative `y` (first match in discovery order, else a
new line), sort line members by ascending `x`, join members with single
spaces and lines with newlines — on the items
`[{x:50,y:100,"World"}, {x:0,y:100,"Hello"}, {x:0,y:50,"Second"}]` produces
`"Hello World\nSecond"`; at the tolerance boundary, items with `y = 100` and
`y = 97.5` (distance exactly 2.5) share a line, while `y = 97` (distance 3)
starts a new one. -/
theorem pdf_reading_order_example :
    extractPageText
        [⟨"World", [1, 0, 0, 1, 50, 100]⟩, ⟨"Hello", [1, 0, 0, 1, 0, 100]⟩,
         ⟨"Second", [1, 0, 0, 1, 0, 50]⟩] = "Hello World\nSecond" ∧
      extractPageText [⟨"A", [1, 0, 0, 1, 0, 100]⟩, ⟨"B", [1, 0, 0, 1, 0, 195 / 2]⟩]
        = "A B" ∧
      extractPageText [⟨"A", [1, 0, 0, 1, 0, 100]⟩, ⟨"B", [1, 0, 0, 1, 0, 97]⟩]
        = "A\nB" := by
  refine ⟨?_, ?_, ?_⟩ <;>
    · norm_num [extractPageText, rowsOfItems, sortRows, insertRowSorted, buildLines,
        addRowToLines, lineTol, ratAbs, sortParts, insertPartSorted, renderLine,
        joinSp, joinSpL, joinNl, joinNlL, jsTrimString, jsTrimL, isJsWs, List.dropWhile]
      decide

end EmbeddingApp



